import Mathlib

/-!
Shallow embedding of the whiteboard core from
`src/components/whiteboard/Whiteboard.tsx`: the element data model, the
scene operations (update/remove by id), snapshot-based undo/redo history,
geometric hit-testing (`getElementAtPosition`, `distanceToSegment`), and
the image-import sizing computation.  Numeric coordinates are embedded as
rationals; the square root appearing in `distanceToSegment` is embedded
with `Real.sqrt` over the (rational) squared distance, and the strict
comparisons against constants performed by the code are decided through
the equivalent squared comparisons (proved as bridging lemmas below).
-/

namespace Whiteboard

/-- Canvas point, `{x: number, y: number}` in the source. -/
structure Point where
  x : ℚ
  y : ℚ
deriving DecidableEq

/-- Tagged element variant, mirroring `type Element = PathElement |
ShapeElement | TextElement | NoteElement | ImageElement` of the source.
The shared fields `id`, `color`, `strokeWidth`, `opacity` come first.
Formatting-only optional fields of text elements (`align`, `isBold`,
`isItalic`, `isUnderlined`) are omitted: no modeled operation reads them. -/
inductive Element where
  | path (id : String) (color : String) (strokeWidth : ℚ) (opacity : ℚ)
      (points : List Point)
  | rectangle (id : String) (color : String) (strokeWidth : ℚ) (opacity : ℚ)
      (startPoint : Point) (endPoint : Point)
  | circle (id : String) (color : String) (strokeWidth : ℚ) (opacity : ℚ)
      (startPoint : Point) (endPoint : Point)
  | arrow (id : String) (color : String) (strokeWidth : ℚ) (opacity : ℚ)
      (startPoint : Point) (endPoint : Point)
  | text (id : String) (color : String) (strokeWidth : ℚ) (opacity : ℚ)
      (position : Point) (content : String) (width : Option ℚ) (height : Option ℚ)
  | note (id : String) (color : String) (strokeWidth : ℚ) (opacity : ℚ)
      (position : Point) (content : String) (width : Option ℚ) (height : Option ℚ)
  | image (id : String) (color : String) (strokeWidth : ℚ) (opacity : ℚ)
      (position : Point) (src : String) (width : ℚ) (height : ℚ) (rotation : ℚ)
deriving DecidableEq

/-- The `id` field shared by every element variant. -/
def Element.id : Element → String
  | .path i _ _ _ _ => i
  | .rectangle i _ _ _ _ _ => i
  | .circle i _ _ _ _ _ => i
  | .arrow i _ _ _ _ _ => i
  | .text i _ _ _ _ _ _ _ => i
  | .note i _ _ _ _ _ _ _ => i
  | .image i _ _ _ _ _ _ _ _ => i

/-- A scene is the ordered element list held in the `elements` state. -/
abbrev Scene := List Element

/-!
## Geometry: `distanceToSegment`

The source computes `param = dot/lenSq` when `lenSq !== 0` (else `-1`),
clamps to the endpoints when `param` falls outside `[0,1]`, and returns
`Math.sqrt(dx*dx + dy*dy)` to the closest point.  We split the rational
core (`distParam`, `segClosest`, `distanceToSegmentSq`) from the final
square root.
-/

/-- Projection parameter: `dot / lenSq` when `lenSq !== 0`, else `-1`. -/
def distParam (point p1 p2 : Point) : ℚ :=
  let a := point.x - p1.x
  let b := point.y - p1.y
  let c := p2.x - p1.x
  let d := p2.y - p1.y
  let dot := a * c + b * d
  let lenSq := c * c + d * d
  if lenSq ≠ 0 then dot / lenSq else -1

/-- The point `(xx, yy)` of the source: `p1` when `param < 0`, `p2` when
`param > 1`, else `p1 + param ⬝ (p2 - p1)`. -/
def segClosest (point p1 p2 : Point) : Point :=
  let c := p2.x - p1.x
  let d := p2.y - p1.y
  let param := distParam point p1 p2
  if param < 0 then p1
  else if param > 1 then p2
  else ⟨p1.x + param * c, p1.y + param * d⟩

/-- Squared distance returned under the final `Math.sqrt`:
`dx*dx + dy*dy` with `(dx, dy) = point - (xx, yy)`. -/
def distanceToSegmentSq (point p1 p2 : Point) : ℚ :=
  let cl := segClosest point p1 p2
  let dx := point.x - cl.x
  let dy := point.y - cl.y
  dx * dx + dy * dy

/-- `distanceToSegment` of the source: `Math.sqrt(dx*dx + dy*dy)`. -/
noncomputable def distanceToSegment (point p1 p2 : Point) : ℝ :=
  Real.sqrt (distanceToSegmentSq point p1 p2)

/-- Euclidean distance between two points (used to state properties of
`distanceToSegment`). -/
noncomputable def pointDistance (p q : Point) : ℝ :=
  Real.sqrt (((p.x - q.x) * (p.x - q.x) + (p.y - q.y) * (p.y - q.y) : ℚ))

/-- The foot of the projection of `point` on the line through `p1`, `p2`,
at parameter `distParam`. -/
def segFoot (point p1 p2 : Point) : Point :=
  ⟨p1.x + distParam point p1 p2 * (p2.x - p1.x),
   p1.y + distParam point p1 p2 * (p2.y - p1.y)⟩

/-!
## Hit-testing: `getElementAtPosition`

The code compares `distanceToSegment(point, p1, p2) < 10`; we decide this
with the equivalent rational comparison `distanceToSegmentSq < 100`
(equivalence proved in `segmentNear_iff` below).  The circle branch tests
`Math.sqrt(nx*nx + ny*ny) <= 1` where `nx`, `ny` divide by the radii:
when a radius is zero the JS division yields Infinity or NaN, the sum and
square root stay Infinity or NaN, and the comparison is false — so a
zero-extent circle matches nothing.  `ellipseContains` guards those
degenerate cases explicitly and decides the nondegenerate comparison as
`nx*nx + ny*ny <= 1` (`ellipseNear_iff`).
-/

/-- Decides `distanceToSegment point p1 p2 < 10`. -/
def segmentNear (point p1 p2 : Point) : Bool :=
  decide (distanceToSegmentSq point p1 p2 < 100)

/-- Normalized squared radius of the circle branch:
`nx*nx + ny*ny` with `nx = (point.x - centerX)/radiusX`,
`ny = (point.y - centerY)/radiusY`.  Meaningful only when both radii are
nonzero; the zero-radius cases (where the JS divisions produce Infinity
or NaN and the test is always false) are guarded in `ellipseContains`. -/
def ellipseNormSq (point sp ep : Point) : ℚ :=
  let centerX := (sp.x + ep.x) / 2
  let centerY := (sp.y + ep.y) / 2
  let radiusX := |ep.x - sp.x| / 2
  let radiusY := |ep.y - sp.y| / 2
  let nx := (point.x - centerX) / radiusX
  let ny := (point.y - centerY) / radiusY
  nx * nx + ny * ny

/-- Circle branch test of the source: with a zero radius on either axis
the division makes `nx` or `ny` Infinity or NaN, so
`Math.sqrt(nx*nx + ny*ny) <= 1` is false; with both radii nonzero the
test is the rational comparison `nx*nx + ny*ny <= 1`. -/
def ellipseContains (point sp ep : Point) : Bool :=
  decide (ep.x - sp.x ≠ 0) && decide (ep.y - sp.y ≠ 0) &&
  decide (ellipseNormSq point sp ep ≤ 1)

/-- Effective width/height of a text/note box: the source tests
`element.width ? element.width : 200`, so an unset or zero (falsy) value
falls back to 200. -/
def effDim (w : Option ℚ) : ℚ :=
  match w with
  | some v => if v = 0 then 200 else v
  | none => 200

/-- Axis-aligned box test of the text/note/image branch:
`point.x >= pos.x && point.x <= pos.x + width && point.y >= pos.y &&
point.y <= pos.y + height`. -/
def boxContains (p pos : Point) (w h : ℚ) : Bool :=
  decide (pos.x ≤ p.x) && decide (p.x ≤ pos.x + w) &&
  decide (pos.y ≤ p.y) && decide (p.y ≤ pos.y + h)

/-- Per-kind matching rule of `getElementAtPosition` for one element. -/
def elementMatches (el : Element) (p : Point) : Bool :=
  match el with
  | .text _ _ _ _ pos _ w h => boxContains p pos (effDim w) (effDim h)
  | .note _ _ _ _ pos _ w h => boxContains p pos (effDim w) (effDim h)
  | .image _ _ _ _ pos _ w h _ => boxContains p pos w h
  | .path _ _ _ _ pts =>
      (pts.zip pts.tail).any (fun q => segmentNear p q.1 q.2)
  | .rectangle _ _ _ _ sp ep =>
      decide (min sp.x ep.x ≤ p.x) && decide (p.x ≤ max sp.x ep.x) &&
      decide (min sp.y ep.y ≤ p.y) && decide (p.y ≤ max sp.y ep.y)
  | .circle _ _ _ _ sp ep => ellipseContains p sp ep
  | .arrow _ _ _ _ sp ep => segmentNear p sp ep

/-- `getElementAtPosition`: iterate from the last (topmost) element down
to the first and return the first element whose matching rule accepts the
point; `null` (here `none`) if no element matches. -/
def getElementAtPosition (es : Scene) (p : Point) : Option Element :=
  es.reverse.find? (fun el => elementMatches el p)

/-- A path element whose point sequence has exactly one point. -/
def isSingletonPath : Element → Bool
  | .path _ _ _ _ [_] => true
  | _ => false

/-!
## Scene operations (update/remove by id)

Each handler updates the element with the matching id by the pattern
`prevElements.map(el => el.id === id ? { ...el, FIELD } : el)` or removes
it by `prevElements.filter(el => el.id !== id)`.  A spread that would put
a field on a variant lacking it (e.g. `text` onto a path) is unobservable
in the source (the stray property is never read) and is modeled as the
identity on those variants.
-/

/-- `handleTextChange` scene update: set `text` on the element with the
matching id (text/note carry a text field; other variants unchanged). -/
def handleTextChange (es : Scene) (i : String) (newText : String) : Scene :=
  es.map (fun el =>
    if el.id = i then
      match el with
      | .text a b c d pos _ w h => .text a b c d pos newText w h
      | .note a b c d pos _ w h => .note a b c d pos newText w h
      | other => other
    else el)

/-- `handlePositionChange` scene update: set `position` on the element
with the matching id (position exists on text/note/image). -/
def handlePositionChange (es : Scene) (i : String) (newPosition : Point) : Scene :=
  es.map (fun el =>
    if el.id = i then
      match el with
      | .text a b c d _ t w h => .text a b c d newPosition t w h
      | .note a b c d _ t w h => .note a b c d newPosition t w h
      | .image a b c d _ src w h r => .image a b c d newPosition src w h r
      | other => other
    else el)

/-- `handleTextResize` scene update: the source guards
`el.id === id && (el.type === "text" || el.type === "note")`. -/
def handleTextResize (es : Scene) (i : String) (w h : ℚ) : Scene :=
  es.map (fun el =>
    if el.id = i then
      match el with
      | .text a b c d pos t _ _ => .text a b c d pos t (some w) (some h)
      | .note a b c d pos t _ _ => .note a b c d pos t (some w) (some h)
      | other => other
    else el)

/-- `handleImageResize` scene update: guarded by
`el.id === id && el.type === "image"`. -/
def handleImageResize (es : Scene) (i : String) (w h : ℚ) : Scene :=
  es.map (fun el =>
    if el.id = i then
      match el with
      | .image a b c d pos src _ _ r => .image a b c d pos src w h r
      | other => other
    else el)

/-- `handleNoteColorChange` scene update: `{ ...el, color: newColor }` on
the matching id; `color` exists on every variant. -/
def handleNoteColorChange (es : Scene) (i : String) (newColor : String) : Scene :=
  es.map (fun el =>
    if el.id = i then
      match el with
      | .path a _ c d pts => .path a newColor c d pts
      | .rectangle a _ c d sp ep => .rectangle a newColor c d sp ep
      | .circle a _ c d sp ep => .circle a newColor c d sp ep
      | .arrow a _ c d sp ep => .arrow a newColor c d sp ep
      | .text a _ c d pos t w h => .text a newColor c d pos t w h
      | .note a _ c d pos t w h => .note a newColor c d pos t w h
      | .image a _ c d pos src w h r => .image a newColor c d pos src w h r
    else el)

/-- Removal by id: `prevElements.filter(el => el.id !== id)`, used by
`handleElementDelete` and the eraser branches. -/
def removeById (es : Scene) (i : String) : Scene :=
  es.filter (fun el => el.id != i)

/-!
## History: snapshots, cursor, commit / undo / redo

React state `history : Element[][]` and `historyIndex : number`
(initially `-1`).  Every committed mutation runs the pattern
`newHistory = history.slice(0, historyIndex + 1);
 setHistory([...newHistory, newElements]); setHistoryIndex(i => i + 1)`.
-/

/-- The whiteboard state relevant to history: current scene, snapshot
list, cursor. -/
structure HistoryState where
  elements : Scene
  history : List Scene
  historyIndex : ℤ
deriving DecidableEq

/-- Initial state: `elements = []`, `history = []`, `historyIndex = -1`. -/
def initState : HistoryState := ⟨[], [], -1⟩

/-- The commit pattern shared by `finishDrawing` and every mutating
handler: truncate after the cursor, append the new scene, advance. -/
def commit (s : HistoryState) (sc : Scene) : HistoryState :=
  { elements := sc,
    history := s.history.take (s.historyIndex + 1).toNat ++ [sc],
    historyIndex := s.historyIndex + 1 }

/-- Fold a list of committed scenes onto a state. -/
def commitList (s : HistoryState) (scenes : List Scene) : HistoryState :=
  scenes.foldl commit s

/-- `handleUndo`: `if (historyIndex > 0) { setHistoryIndex(historyIndex - 1);
setElements(history[historyIndex - 1]); }`.  Under the history invariant
the index `historyIndex - 1` is in range, so the `getD` default is never
used. -/
def handleUndo (s : HistoryState) : HistoryState :=
  if 0 < s.historyIndex then
    { elements := s.history.getD (s.historyIndex - 1).toNat [],
      history := s.history,
      historyIndex := s.historyIndex - 1 }
  else s

/-- `handleRedo`: `if (historyIndex < history.length - 1) { ... }`. -/
def handleRedo (s : HistoryState) : HistoryState :=
  if s.historyIndex < (s.history.length : ℤ) - 1 then
    { elements := s.history.getD (s.historyIndex + 1).toNat [],
      history := s.history,
      historyIndex := s.historyIndex + 1 }
  else s

/-- `handleElementDelete`: filter out the id, then commit the filtered
scene (the source duplicates the commit pattern inline). -/
def handleElementDelete (s : HistoryState) (i : String) : HistoryState :=
  let updatedElements := removeById s.elements i
  { elements := updatedElements,
    history := s.history.take (s.historyIndex + 1).toNat ++ [updatedElements],
    historyIndex := s.historyIndex + 1 }

/-- `canUndo` prop: `historyIndex > 0`. -/
def canUndo (s : HistoryState) : Bool := decide (0 < s.historyIndex)

/-- `canRedo` prop: `historyIndex < history.length - 1`. -/
def canRedo (s : HistoryState) : Bool :=
  decide (s.historyIndex < (s.history.length : ℤ) - 1)

/-- The history invariant: `-1 ≤ cursor < entries.length`. -/
def Inv (s : HistoryState) : Prop :=
  -1 ≤ s.historyIndex ∧ s.historyIndex < (s.history.length : ℤ)

/-!
## Image import sizing (`handleFileUpload`)

`maxWidth = canvasWidth * 0.8`, `maxHeight = canvasHeight * 0.8`; the
width cap is applied first (rescaling the height), then the height cap
(rescaling the width); the result is centered.  Returns
`(width, height, position.x, position.y)`.
-/

def computeImageLayout (imgWidth imgHeight canvasWidth canvasHeight : ℚ) :
    ℚ × ℚ × ℚ × ℚ :=
  let maxWidth := canvasWidth * 0.8
  let maxHeight := canvasHeight * 0.8
  let width := imgWidth
  let height := imgHeight
  let width1 := if width > maxWidth then maxWidth else width
  let height1 := if width > maxWidth then height * (maxWidth / width) else height
  let height2 := if height1 > maxHeight then maxHeight else height1
  let width2 := if height1 > maxHeight then width1 * (maxHeight / height1) else width1
  (width2, height2, (canvasWidth - width2) / 2, (canvasHeight - height2) / 2)

/-!
## Concrete scenario elements (from §8 of the spec)
-/

/-- The §8 scenario path with points `[(0,0),(10,0)]`. -/
def c8path : Element := .path "p1" "#000000" 3 1 [⟨0, 0⟩, ⟨10, 0⟩]

/-- A single-point path (a dot). -/
def c9dot : Element := .path "d1" "#000000" 3 1 [⟨3, 4⟩]

/-- A rectangle covering `[0,10] × [0,10]`, appended first. -/
def c3rectA : Element := .rectangle "a" "#000000" 3 1 ⟨0, 0⟩ ⟨10, 10⟩

/-- The same rectangle region with a different id, appended second. -/
def c3rectB : Element := .rectangle "b" "#ff0000" 3 1 ⟨0, 0⟩ ⟨10, 10⟩

/-!
## Bridging lemmas between the rational cores and the real comparisons
-/

theorem distanceToSegmentSq_nonneg (point p1 p2 : Point) :
    0 ≤ distanceToSegmentSq point p1 p2 :=
  add_nonneg (mul_self_nonneg _) (mul_self_nonneg _)

/-- `segmentNear` decides the source comparison
`distanceToSegment(point, p1, p2) < 10`. -/
theorem segmentNear_iff (point p1 p2 : Point) :
    segmentNear point p1 p2 = true ↔ distanceToSegment point p1 p2 < 10 := by
  unfold segmentNear distanceToSegment
  rw [decide_eq_true_iff, Real.sqrt_lt' (by norm_num : (0:ℝ) < 10)]
  constructor
  · intro h
    calc ((distanceToSegmentSq point p1 p2 : ℚ) : ℝ) < ((100 : ℚ) : ℝ) := by
          exact_mod_cast h
      _ = 10 ^ 2 := by norm_num
  · intro h
    have h100 : ((distanceToSegmentSq point p1 p2 : ℚ) : ℝ) < ((100 : ℚ) : ℝ) := by
      calc ((distanceToSegmentSq point p1 p2 : ℚ) : ℝ) < 10 ^ 2 := h
        _ = ((100 : ℚ) : ℝ) := by norm_num
    exact_mod_cast h100

theorem ellipseNormSq_nonneg (p sp ep : Point) : 0 ≤ ellipseNormSq p sp ep :=
  add_nonneg (mul_self_nonneg _) (mul_self_nonneg _)

/-- A circle with a zero-extent axis matches no point, mirroring the
always-false NaN/Infinity comparison of the source. -/
theorem ellipseContains_degenerate (p sp ep : Point)
    (h : ep.x = sp.x ∨ ep.y = sp.y) : ellipseContains p sp ep = false := by
  unfold ellipseContains
  rcases h with h | h <;> simp [h]

/-- With both radii nonzero, the circle branch decides the source
comparison `Math.sqrt(nx*nx + ny*ny) <= 1`. -/
theorem ellipseNear_iff (p sp ep : Point) :
    decide (ellipseNormSq p sp ep ≤ 1) = true ↔
      Real.sqrt (ellipseNormSq p sp ep) ≤ 1 := by
  rw [decide_eq_true_iff]
  constructor
  · intro h
    calc Real.sqrt (ellipseNormSq p sp ep) ≤ Real.sqrt 1 :=
          Real.sqrt_le_sqrt (by exact_mod_cast h)
      _ = 1 := Real.sqrt_one
  · intro h
    have h0 : (0:ℝ) ≤ ((ellipseNormSq p sp ep : ℚ) : ℝ) := by
      exact_mod_cast ellipseNormSq_nonneg p sp ep
    have hs := Real.sq_sqrt h0
    have h1 : ((ellipseNormSq p sp ep : ℚ) : ℝ) ≤ 1 := by
      nlinarith [Real.sqrt_nonneg ((ellipseNormSq p sp ep : ℚ) : ℝ)]
    exact_mod_cast h1

/-- Mapping a function that fixes every member of a list is the identity. -/
theorem map_fixes {α : Type} (l : List α) (f : α → α)
    (h : ∀ a ∈ l, f a = a) : l.map f = l := by
  induction l with
  | nil => rfl
  | cons a t ih =>
      simp only [List.map_cons, h a (List.mem_cons_self a t)]
      rw [ih fun b hb => h b (List.mem_cons_of_mem a hb)]

/-!
## Claim theorems
-/

/-- Claim C3: hit-testing iterates from the last (topmost) element to the
first and returns the first element whose per-kind matching rule accepts
the point; hence with A appended before B, both matching the query point,
and nothing above B matching it, hitTest returns B — the topmost
overlapping element always wins. -/
theorem spec_c3_topmost_wins
    (pre mid post : Scene) (A B : Element) (p : Point)
    (_hA : elementMatches A p = true) (hB : elementMatches B p = true)
    (hpost : ∀ C ∈ post, elementMatches C p = false) :
    getElementAtPosition (pre ++ A :: mid ++ B :: post) p = some B := by
  unfold getElementAtPosition
  rw [show pre ++ A :: mid ++ B :: post = (pre ++ A :: mid) ++ B :: post by
    simp]
  rw [List.reverse_append, List.reverse_cons, List.append_assoc,
    List.singleton_append, List.find?_append]
  have h1 : post.reverse.find? (fun el => elementMatches el p) = none := by
    rw [List.find?_eq_none]
    intro x hx
    simp [hpost x (List.mem_reverse.mp hx)]
  have h2 : List.find? (fun el => elementMatches el p)
      (B :: (pre ++ A :: mid).reverse) = some B :=
    List.find?_cons_of_pos _ hB
  rw [h1, h2]
  rfl

/-- Witness for C3: two stacked identical rectangles, query at their
common interior point, resolves to the one appended second. -/
theorem spec_c3_topmost_wins_witness :
    getElementAtPosition [c3rectA, c3rectB] ⟨5, 5⟩ = some c3rectB := by
  have h := spec_c3_topmost_wins [] [] [] c3rectA c3rectB ⟨5, 5⟩
    (by decide) (by decide) (by intro C hC; cases hC)
  simpa using h

/-- Claim C8: a path element is hit exactly when some consecutive pair of
its points forms a segment with `distanceToSegment < 10` to the query
point; in the §8 scenario the path `[(0,0),(10,0)]` is hit at `(5,1)` and
missed at `(5,50)`. -/
theorem spec_c8_path_hit :
    (∀ (pts : List Point) (p : Point) (i c : String) (sw o : ℚ),
        elementMatches (.path i c sw o pts) p = true ↔
          ∃ q ∈ pts.zip pts.tail, distanceToSegment p q.1 q.2 < 10) ∧
    getElementAtPosition [c8path] ⟨5, 1⟩ = some c8path ∧
    getElementAtPosition [c8path] ⟨5, 50⟩ = none := by
  have hit : elementMatches c8path ⟨5, 1⟩ = true := by
    norm_num [c8path, elementMatches, segmentNear, distanceToSegmentSq,
      segClosest, distParam]
  have miss : elementMatches c8path ⟨5, 50⟩ = false := by
    norm_num [c8path, elementMatches, segmentNear, distanceToSegmentSq,
      segClosest, distParam]
  refine ⟨fun pts p i c sw o => ?_, ?_, ?_⟩
  · simp only [elementMatches, List.any_eq_true]
    exact exists_congr fun q => and_congr_right fun _ =>
      segmentNear_iff p q.1 q.2
  · show List.find? (fun el => elementMatches el ⟨5, 1⟩) [c8path] = some c8path
    exact List.find?_cons_of_pos _ hit
  · show List.find? (fun el => elementMatches el ⟨5, 50⟩) [c8path] = none
    rw [List.find?_cons_of_neg _ (by simp [miss])]
    rfl

/-- Claim C9: hitTest never returns a path element with exactly one
point: a one-point path has no consecutive point pair, so its matching
rule rejects every query point — even the query point equal to its sole
point (the concrete dot at `(3,4)` queried at `(3,4)` yields no hit). -/
theorem spec_c9_singleton_path_unhittable :
    (∀ (es : Scene) (p : Point),
        ((getElementAtPosition es p).all fun e => !isSingletonPath e) = true) ∧
    getElementAtPosition [c9dot] ⟨3, 4⟩ = none := by
  constructor
  · intro es p
    cases h : getElementAtPosition es p with
    | none => rfl
    | some e =>
      have h' : es.reverse.find? (fun el => elementMatches el p) = some e := h
      have hm : elementMatches e p = true := by
        have hb := List.find?_some h'
        exact hb
      cases e with
      | path i c sw o pts =>
          cases pts with
          | nil => rfl
          | cons a t =>
              cases t with
              | nil => simp [elementMatches] at hm
              | cons b t2 => rfl
      | rectangle i c sw o sp ep => rfl
      | circle i c sw o sp ep => rfl
      | arrow i c sw o sp ep => rfl
      | text i c sw o pos t w hh => rfl
      | note i c sw o pos t w hh => rfl
      | image i c sw o pos src w hh r => rfl
  · decide

/-- Claim C7: all not-found conditions are silent no-ops: every update
operation on an id absent from the scene, and removal of an absent id,
leave the element sequence unchanged; undo with cursor at or below 0 and
redo with cursor at the last entry leave the whole state unchanged. -/
theorem spec_c7_notfound_noops :
    (∀ (es : Scene) (i : String), (∀ el ∈ es, el.id ≠ i) →
      (∀ t, handleTextChange es i t = es) ∧
      (∀ q, handlePositionChange es i q = es) ∧
      (∀ w h, handleTextResize es i w h = es) ∧
      (∀ w h, handleImageResize es i w h = es) ∧
      (∀ c, handleNoteColorChange es i c = es) ∧
      removeById es i = es) ∧
    (∀ s : HistoryState, s.historyIndex ≤ 0 → handleUndo s = s) ∧
    (∀ s : HistoryState, s.historyIndex = (s.history.length : ℤ) - 1 →
      handleRedo s = s) := by
  refine ⟨fun es i h => ?_, fun s hs => ?_, fun s hs => ?_⟩
  · refine ⟨fun t => ?_, fun q => ?_, fun w hh => ?_, fun w hh => ?_,
      fun c => ?_, ?_⟩
    · exact map_fixes es _ fun el hel => by simp [h el hel]
    · exact map_fixes es _ fun el hel => by simp [h el hel]
    · exact map_fixes es _ fun el hel => by simp [h el hel]
    · exact map_fixes es _ fun el hel => by simp [h el hel]
    · exact map_fixes es _ fun el hel => by simp [h el hel]
    · unfold removeById
      rw [List.filter_eq_self]
      intro a ha
      simpa using h a ha
  · unfold handleUndo
    rw [if_neg (by omega)]
  · unfold handleRedo
    rw [if_neg (by omega)]

/-- Witness for C7: a concrete absent-id text update, an undo at cursor
`-1`, and a redo at the last entry, all no-ops. -/
theorem spec_c7_notfound_noops_witness :
    handleTextChange [c3rectA] "zz" "t" = [c3rectA] ∧
    handleUndo ⟨[], [], -1⟩ = ⟨[], [], -1⟩ ∧
    handleRedo ⟨[], [[]], 0⟩ = ⟨[], [[]], 0⟩ := by
  have h := spec_c7_notfound_noops
  refine ⟨(h.1 [c3rectA] "zz" ?_).1 "t", h.2.1 _ (by norm_num), h.2.2 _ (by simp)⟩
  intro el hel
  rcases List.mem_singleton.mp hel with rfl
  decide

/-- Claim C10: `handleElementDelete` always advances the cursor and
appends a snapshot, even when no element has the given id: in that case
the element sequence is unchanged and the appended entry equals the
current scene; with the cursor at the last entry the history grows by
exactly one entry. -/
theorem spec_c10_delete_always_commits (s : HistoryState) (i : String) :
    (handleElementDelete s i).historyIndex = s.historyIndex + 1 ∧
    ((∀ el ∈ s.elements, el.id ≠ i) →
      (handleElementDelete s i).elements = s.elements ∧
      (handleElementDelete s i).history =
        s.history.take (s.historyIndex + 1).toNat ++ [s.elements]) ∧
    (s.historyIndex = (s.history.length : ℤ) - 1 →
      (handleElementDelete s i).history.length = s.history.length + 1) := by
  refine ⟨rfl, fun h => ?_, fun h => ?_⟩
  · have he : removeById s.elements i = s.elements := by
      unfold removeById
      rw [List.filter_eq_self]
      intro a ha
      simpa using h a ha
    exact ⟨he, by simp [handleElementDelete, he]⟩
  · have ht : (s.historyIndex + 1).toNat = s.history.length := by omega
    simp [handleElementDelete, ht]

/-- Witness for C10: deleting an absent id from a one-element scene with
one history entry advances the cursor to 1, keeps the scene, and appends
a snapshot equal to the current scene. -/
theorem spec_c10_delete_always_commits_witness :
    (handleElementDelete ⟨[c3rectA], [[c3rectA]], 0⟩ "zz").historyIndex = 1 ∧
    (handleElementDelete ⟨[c3rectA], [[c3rectA]], 0⟩ "zz").elements = [c3rectA] ∧
    (handleElementDelete ⟨[c3rectA], [[c3rectA]], 0⟩ "zz").history.length = 2 := by
  have h := spec_c10_delete_always_commits ⟨[c3rectA], [[c3rectA]], 0⟩ "zz"
  have habs : ∀ el ∈ ([c3rectA] : Scene), el.id ≠ "zz" := by
    intro el hel
    rcases List.mem_singleton.mp hel with rfl
    decide
  exact ⟨h.1, (h.2.1 habs).1, h.2.2 (by simp)⟩

/-- Claim C4: `distanceToSegment` equals the distance to the
perpendicular foot on the line through A and B when the projection
parameter lies in `[0,1]` (the foot lies on that line and the connecting
vector is orthogonal to B−A); it equals the distance to A when the
parameter is negative, to B when it exceeds 1, and to A in the degenerate
case `A = B`. -/
theorem spec_c4_distanceToSegment_cases (P A B : Point) :
    (0 ≤ distParam P A B → distParam P A B ≤ 1 →
      distanceToSegment P A B = pointDistance P (segFoot P A B) ∧
      (P.x - (segFoot P A B).x) * (B.x - A.x) +
        (P.y - (segFoot P A B).y) * (B.y - A.y) = 0) ∧
    (distParam P A B < 0 → distanceToSegment P A B = pointDistance P A) ∧
    (1 < distParam P A B → distanceToSegment P A B = pointDistance P B) ∧
    (A = B → distanceToSegment P A B = pointDistance P A) := by
  refine ⟨fun h0 h1 => ⟨?_, ?_⟩, fun h => ?_, fun h => ?_, fun h => ?_⟩
  · simp only [distanceToSegment, distanceToSegmentSq, segClosest,
      pointDistance, segFoot]
    rw [if_neg (not_lt.mpr h0), if_neg (not_lt.mpr h1)]
  · have hlen : (B.x - A.x) * (B.x - A.x) + (B.y - A.y) * (B.y - A.y) ≠ 0 := by
      intro hz
      have hm : distParam P A B = -1 := by simp [distParam, hz]
      rw [hm] at h0
      norm_num at h0
    simp only [segFoot, distParam, if_pos hlen]
    field_simp
    ring
  · simp only [distanceToSegment, distanceToSegmentSq, segClosest,
      pointDistance]
    rw [if_pos h]
  · have h2 : ¬ distParam P A B < 0 := by
      intro hc
      exact absurd (hc.trans (by norm_num : (0:ℚ) < 1)) (not_lt.mpr h.le)
    simp only [distanceToSegment, distanceToSegmentSq, segClosest,
      pointDistance]
    rw [if_neg h2, if_pos h]
  · subst h
    have hm : distParam P A A = -1 := by simp [distParam]
    simp only [distanceToSegment, distanceToSegmentSq, segClosest,
      pointDistance]
    rw [hm, if_pos (by norm_num : (-1:ℚ) < 0)]

/-- Witness for C4: for `P=(5,1)`, `A=(0,0)`, `B=(10,0)` the parameter is
`1/2 ∈ [0,1]` and the distance equals the distance to the foot. -/
theorem spec_c4_distanceToSegment_cases_witness :
    0 ≤ distParam ⟨5, 1⟩ ⟨0, 0⟩ ⟨10, 0⟩ ∧
    distParam ⟨5, 1⟩ ⟨0, 0⟩ ⟨10, 0⟩ ≤ 1 ∧
    distanceToSegment ⟨5, 1⟩ ⟨0, 0⟩ ⟨10, 0⟩ =
      pointDistance ⟨5, 1⟩ (segFoot ⟨5, 1⟩ ⟨0, 0⟩ ⟨10, 0⟩) := by
  have h0 : 0 ≤ distParam ⟨5, 1⟩ ⟨0, 0⟩ ⟨10, 0⟩ := by norm_num [distParam]
  have h1 : distParam ⟨5, 1⟩ ⟨0, 0⟩ ⟨10, 0⟩ ≤ 1 := by norm_num [distParam]
  exact ⟨h0, h1,
    ((spec_c4_distanceToSegment_cases ⟨5, 1⟩ ⟨0, 0⟩ ⟨10, 0⟩).1 h0 h1).1⟩

/-- Claim C5: image import preserves the aspect ratio, caps the display
size at 80% of the canvas width and height, and centers the result; a
2000×1000 asset in a 1000×800 canvas becomes 800×400 at (100,200). -/
theorem spec_c5_image_import_layout :
    (∀ imgW imgH cw ch : ℚ, 0 ≤ imgW → 0 ≤ imgH → 0 ≤ cw → 0 ≤ ch →
      (computeImageLayout imgW imgH cw ch).1 ≤ cw * 0.8 ∧
      (computeImageLayout imgW imgH cw ch).2.1 ≤ ch * 0.8 ∧
      (computeImageLayout imgW imgH cw ch).1 * imgH =
        (computeImageLayout imgW imgH cw ch).2.1 * imgW ∧
      (computeImageLayout imgW imgH cw ch).2.2.1 =
        (cw - (computeImageLayout imgW imgH cw ch).1) / 2 ∧
      (computeImageLayout imgW imgH cw ch).2.2.2 =
        (ch - (computeImageLayout imgW imgH cw ch).2.1) / 2) ∧
    computeImageLayout 2000 1000 1000 800 = (800, 400, 100, 200) := by
  constructor
  · intro imgW imgH cw ch hW hH hcw hch
    have hmw : (0:ℚ) ≤ cw * 0.8 := by positivity
    have hmh : (0:ℚ) ≤ ch * 0.8 := by positivity
    simp only [computeImageLayout]
    split_ifs with h1 h2 h2
    · -- both caps bind
      have hWpos : 0 < imgW := lt_of_le_of_lt hmw h1
      have hXpos : 0 < imgH * (cw * 0.8 / imgW) := lt_of_le_of_lt hmh h2
      have hH0 : imgH ≠ 0 := by
        intro hz
        rw [hz] at hXpos
        simp at hXpos
      have hcw0 : cw ≠ 0 := by
        intro hz
        rw [hz] at hXpos
        norm_num at hXpos
      refine ⟨?_, le_refl _, ?_, trivial, trivial⟩
      · exact mul_le_of_le_one_right hmw
          ((div_le_one hXpos).mpr h2.le)
      · field_simp
        ring
    · -- only the width cap binds
      refine ⟨le_refl _, not_lt.mp h2, ?_, trivial, trivial⟩
      have hWpos : 0 < imgW := lt_of_le_of_lt hmw h1
      have hW0 : imgW ≠ 0 := ne_of_gt hWpos
      field_simp
      ring
    · -- only the height cap binds
      have hHpos : 0 < imgH := lt_of_le_of_lt hmh h2
      have hH0 : imgH ≠ 0 := ne_of_gt hHpos
      refine ⟨?_, le_refl _, ?_, trivial, trivial⟩
      · exact le_trans
          (mul_le_of_le_one_right hW ((div_le_one hHpos).mpr h2.le))
          (not_lt.mp h1)
      · field_simp
        ring
    · -- no cap binds
      exact ⟨not_lt.mp h1, not_lt.mp h2, mul_comm imgW imgH, trivial, trivial⟩
  · norm_num [computeImageLayout]

/-- Witness for C5: the §8 scenario instance, obtained from the general
statement at 2000×1000 into 1000×800. -/
theorem spec_c5_image_import_layout_witness :
    (computeImageLayout 2000 1000 1000 800).1 ≤ 1000 * 0.8 ∧
    (computeImageLayout 2000 1000 1000 800).1 * 1000 =
      (computeImageLayout 2000 1000 1000 800).2.1 * 2000 := by
  have h := spec_c5_image_import_layout.1 2000 1000 1000 800
    (by norm_num) (by norm_num) (by norm_num) (by norm_num)
  exact ⟨h.1, h.2.2.1⟩

/-!
## History characterization lemmas
-/

/-- Last element at index `length - 1` (with default). -/
theorem getD_pred_eq_getLastD {α : Type} (l : List α) (d : α) :
    l.getD (l.length - 1) d = l.getLastD d := by
  rw [List.getD_eq_getElem?_getD, List.getLastD_eq_getLast?,
    List.getLast?_eq_getElem?]

/-- `handleUndo` is the identity when the cursor is at or below 0. -/
theorem handleUndo_noop (s : HistoryState) (h : s.historyIndex ≤ 0) :
    handleUndo s = s := by
  unfold handleUndo
  rw [if_neg (not_lt.mpr h)]

/-- `handleUndo` steps down when the cursor is positive. -/
theorem handleUndo_step (s : HistoryState) (h : 0 < s.historyIndex) :
    handleUndo s = ⟨s.history.getD (s.historyIndex - 1).toNat [],
      s.history, s.historyIndex - 1⟩ := by
  unfold handleUndo
  rw [if_pos h]

/-- `handleRedo` is the identity when the cursor is at the last entry or
beyond. -/
theorem handleRedo_noop (s : HistoryState)
    (h : (s.history.length : ℤ) - 1 ≤ s.historyIndex) : handleRedo s = s := by
  unfold handleRedo
  rw [if_neg (not_lt.mpr h)]

/-- `handleRedo` steps up when the cursor is before the last entry. -/
theorem handleRedo_step (s : HistoryState)
    (h : s.historyIndex < (s.history.length : ℤ) - 1) :
    handleRedo s = ⟨s.history.getD (s.historyIndex + 1).toNat [],
      s.history, s.historyIndex + 1⟩ := by
  unfold handleRedo
  rw [if_pos h]

/-- Folding commits onto a state whose cursor sits at the last entry
appends every scene in order and leaves the cursor at the new last
entry, with the current scene equal to the last committed one. -/
theorem commitList_spec (l : List Scene) (e : Scene) (hs : List Scene) :
    commitList ⟨e, hs, (hs.length : ℤ) - 1⟩ l =
      ⟨l.getLastD e, hs ++ l, ((hs.length + l.length : ℕ) : ℤ) - 1⟩ := by
  induction l generalizing e hs with
  | nil => simp [commitList]
  | cons a t ih =>
      have hc : commit ⟨e, hs, (hs.length : ℤ) - 1⟩ a =
          ⟨a, hs ++ [a], (((hs ++ [a]).length : ℕ) : ℤ) - 1⟩ := by
        unfold commit
        dsimp only
        have h1 : (((hs.length : ℤ) - 1) + 1).toNat = hs.length := by omega
        rw [h1, List.take_length, List.length_append, List.length_singleton]
        simp only [HistoryState.mk.injEq, true_and]
        omega
      have hfold : commitList ⟨e, hs, (hs.length : ℤ) - 1⟩ (a :: t) =
          commitList ⟨a, hs ++ [a], (((hs ++ [a]).length : ℕ) : ℤ) - 1⟩ t := by
        dsimp only [commitList, List.foldl_cons]
        rw [hc]
      rw [hfold]
      rw [show (((hs ++ [a]).length : ℕ) : ℤ) - 1 =
        (((hs ++ [a]).length : ℕ) : ℤ) - 1 from rfl]
      rw [ih a (hs ++ [a])]
      rw [List.getLastD_cons, List.length_append, List.length_singleton,
        List.length_cons]
      simp only [HistoryState.mk.injEq, true_and]
      refine ⟨by simp, by omega⟩

/-- `commitList` from the initial state: the history is exactly the list
of committed scenes, the cursor is at the last one, and the current
scene is the last committed one. -/
theorem commitList_initState (l : List Scene) :
    commitList initState l = ⟨l.getLastD [], l, (l.length : ℤ) - 1⟩ := by
  have h := commitList_spec l [] []
  simpa [initState] using h

/-- Iterated `handleUndo` from cursor `m` (valid in a history `hs`): it
walks down to `m - k` (truncated at 0), loading the snapshot there; it is
the identity when the cursor is already 0 or no step is taken. -/
theorem undo_iterate (hs : List Scene) (e : Scene) (m k : ℕ)
    (hm : m < hs.length) :
    handleUndo^[k] ⟨e, hs, (m : ℤ)⟩ =
      if m = 0 ∨ k = 0 then ⟨e, hs, (m : ℤ)⟩
      else ⟨hs.getD (m - k) [], hs, ((m - k : ℕ) : ℤ)⟩ := by
  induction k generalizing m e with
  | zero => simp
  | succ k ih =>
      rw [Function.iterate_succ_apply]
      cases m with
      | zero =>
          have h0 : handleUndo ⟨e, hs, ((0 : ℕ) : ℤ)⟩ = ⟨e, hs, ((0 : ℕ) : ℤ)⟩ :=
            handleUndo_noop _ (by show ((0 : ℕ) : ℤ) ≤ 0; omega)
          rw [h0, ih e 0 hm]
          simp
      | succ m' =>
          have hstep : handleUndo ⟨e, hs, ((m' + 1 : ℕ) : ℤ)⟩ =
              ⟨hs.getD m' [], hs, ((m' : ℕ) : ℤ)⟩ := by
            rw [handleUndo_step _ (by show (0 : ℤ) < ((m' + 1 : ℕ) : ℤ); omega)]
            dsimp only
            rw [show ((((m' + 1 : ℕ) : ℤ)) - 1).toNat = m' from by omega,
              show (((m' + 1 : ℕ) : ℤ)) - 1 = ((m' : ℕ) : ℤ) from by omega]
          rw [hstep, ih (hs.getD m' []) m' (by omega)]
          rw [if_neg (show ¬ (m' + 1 = 0 ∨ k + 1 = 0) by omega)]
          by_cases h1 : m' = 0 ∨ k = 0
          · rw [if_pos h1]
            rw [show (m' + 1) - (k + 1) = m' from by omega]
          · rw [if_neg h1]
            rw [show (m' + 1) - (k + 1) = m' - k from by omega]

/-- Iterated `handleRedo` from cursor `m`: it walks up to
`min (m + k) (length - 1)`, loading the snapshot there; it is the
identity when the cursor is already at the last entry or no step is
taken. -/
theorem redo_iterate (hs : List Scene) (e : Scene) (m k : ℕ)
    (hm : m < hs.length) :
    handleRedo^[k] ⟨e, hs, (m : ℤ)⟩ =
      if m = hs.length - 1 ∨ k = 0 then ⟨e, hs, (m : ℤ)⟩
      else ⟨hs.getD (min (m + k) (hs.length - 1)) [], hs,
        ((min (m + k) (hs.length - 1) : ℕ) : ℤ)⟩ := by
  induction k generalizing m e with
  | zero => simp
  | succ k ih =>
      rw [Function.iterate_succ_apply]
      by_cases hlast : m = hs.length - 1
      · have h0 : handleRedo ⟨e, hs, (m : ℤ)⟩ = ⟨e, hs, (m : ℤ)⟩ :=
          handleRedo_noop _ (by show ((hs.length : ℕ) : ℤ) - 1 ≤ ((m : ℕ) : ℤ); omega)
        rw [h0, ih e m hm, if_pos (Or.inl hlast), if_pos (Or.inl hlast)]
      · have hstep : handleRedo ⟨e, hs, (m : ℤ)⟩ =
            ⟨hs.getD (m + 1) [], hs, ((m + 1 : ℕ) : ℤ)⟩ := by
          rw [handleRedo_step _
            (by show ((m : ℕ) : ℤ) < ((hs.length : ℕ) : ℤ) - 1; omega)]
          dsimp only
          rw [show (((m : ℕ) : ℤ) + 1).toNat = m + 1 from by omega,
            show ((m : ℕ) : ℤ) + 1 = ((m + 1 : ℕ) : ℤ) from by omega]
        rw [hstep, ih (hs.getD (m + 1) []) (m + 1) (by omega)]
        rw [if_neg (show ¬ (m = hs.length - 1 ∨ k + 1 = 0) by omega)]
        by_cases h1 : m + 1 = hs.length - 1 ∨ k = 0
        · rw [if_pos h1]
          rw [show min (m + (k + 1)) (hs.length - 1) = m + 1 from by omega]
        · rw [if_neg h1]
          rw [show min (m + 1 + k) (hs.length - 1) =
            min (m + (k + 1)) (hs.length - 1) from by omega]

/-- Claim C1: after any nonempty sequence of commits, undoing N times and
then redoing N times restores the final committed scene; undo with the
cursor at or below the first committed entry leaves the state unchanged;
and redo immediately after a commit (here: after any commit-only run) is
a no-op. -/
theorem spec_c1_history_roundtrip :
    (∀ scs : List Scene, scs ≠ [] →
      (handleRedo^[scs.length] (handleUndo^[scs.length]
        (commitList initState scs))).elements = scs.getLastD []) ∧
    (∀ s : HistoryState, s.historyIndex ≤ 0 → handleUndo s = s) ∧
    (∀ (scs : List Scene) (sc : Scene),
      handleRedo (commit (commitList initState scs) sc) =
        commit (commitList initState scs) sc) := by
  refine ⟨fun scs hne => ?_, fun s hs => ?_, fun scs sc => ?_⟩
  · have hN : 0 < scs.length := List.length_pos.mpr hne
    rw [commitList_initState]
    rw [show ((scs.length : ℤ) - 1) = ((scs.length - 1 : ℕ) : ℤ) from by omega]
    rw [undo_iterate _ _ _ _ (by omega)]
    by_cases hN1 : scs.length = 1
    · rw [if_pos (Or.inl (by omega))]
      rw [redo_iterate _ _ _ _ (by omega)]
      rw [if_pos (Or.inl rfl)]
    · rw [if_neg (by omega)]
      rw [redo_iterate _ _ _ _ (by omega)]
      rw [if_neg (by omega)]
      show scs.getD (min (scs.length - 1 - scs.length + scs.length)
        (scs.length - 1)) [] = scs.getLastD []
      rw [show min (scs.length - 1 - scs.length + scs.length)
        (scs.length - 1) = scs.length - 1 from by omega]
      exact getD_pred_eq_getLastD scs []
  · unfold handleUndo
    rw [if_neg (by omega)]
  · rw [commitList_initState]
    have hc : commit ⟨scs.getLastD [], scs, (scs.length : ℤ) - 1⟩ sc =
        ⟨sc, scs ++ [sc], (scs.length : ℤ)⟩ := by
      unfold commit
      dsimp only
      have h1 : (((scs.length : ℤ) - 1) + 1).toNat = scs.length := by omega
      rw [h1, List.take_length]
      simp only [HistoryState.mk.injEq, true_and]
      ring
    rw [hc]
    refine handleRedo_noop _ ?_
    show ((scs ++ [sc]).length : ℤ) - 1 ≤ (scs.length : ℤ)
    rw [List.length_append, List.length_singleton]
    push_cast
    omega

/-- Witness for C1: two commits, two undos, two redos restore the second
committed scene. -/
theorem spec_c1_history_roundtrip_witness :
    (handleRedo^[2] (handleUndo^[2]
      (commitList initState [[], [c3rectA]]))).elements = [c3rectA] := by
  have h := spec_c1_history_roundtrip.1 [[], [c3rectA]] (by simp)
  simpa using h

/-- Claim C2: committing after k effective undos (1 ≤ k ≤ N−1 from a run
of N commits) truncates the k entries after the cursor, appends the new
scene, and puts the cursor at the new last index; a redo immediately
after such a commit is a no-op. -/
theorem spec_c2_commit_truncates
    (scs : List Scene) (k : ℕ) (sc : Scene)
    (hk1 : 1 ≤ k) (hk2 : k ≤ scs.length - 1) :
    commit (handleUndo^[k] (commitList initState scs)) sc =
      ⟨sc, scs.take (scs.length - k) ++ [sc], ((scs.length - k : ℕ) : ℤ)⟩ ∧
    handleRedo (commit (handleUndo^[k] (commitList initState scs)) sc) =
      commit (handleUndo^[k] (commitList initState scs)) sc := by
  have hN : 2 ≤ scs.length := by omega
  rw [commitList_initState]
  rw [show ((scs.length : ℤ) - 1) = ((scs.length - 1 : ℕ) : ℤ) from by omega]
  rw [undo_iterate _ _ _ _ (by omega)]
  rw [if_neg (by omega)]
  have hc : commit ⟨scs.getD (scs.length - 1 - k) [], scs,
      ((scs.length - 1 - k : ℕ) : ℤ)⟩ sc =
      ⟨sc, scs.take (scs.length - k) ++ [sc], ((scs.length - k : ℕ) : ℤ)⟩ := by
    unfold commit
    dsimp only
    have h1 : ((((scs.length - 1 - k : ℕ) : ℤ)) + 1).toNat =
        scs.length - k := by omega
    rw [h1]
    simp only [HistoryState.mk.injEq, true_and]
    omega
  rw [hc]
  refine ⟨rfl, handleRedo_noop _ ?_⟩
  show ((scs.take (scs.length - k) ++ [sc]).length : ℤ) - 1 ≤
    ((scs.length - k : ℕ) : ℤ)
  rw [List.length_append, List.length_take, List.length_singleton]
  have hmin : min (scs.length - k) scs.length = scs.length - k := by omega
  rw [hmin]
  omega

/-- Witness for C2: two commits, one undo, then a new commit: the
redoable entry is discarded, the new scene is appended, the cursor is at
the new last index. -/
theorem spec_c2_commit_truncates_witness :
    commit (handleUndo^[1] (commitList initState [[], [c3rectA]])) [c8path] =
      ⟨[c8path], [[], [c8path]], 1⟩ := by
  have h := (spec_c2_commit_truncates [[], [c3rectA]] 1 [c8path]
    (by norm_num) (by norm_num)).1
  simpa using h

/-- Claim C6: the invariant `-1 ≤ cursor < entries.length` holds
initially and is preserved by commit, undo and redo; and `canUndo` holds
exactly when the cursor is positive, `canRedo` exactly when the cursor is
before the last entry. -/
theorem spec_c6_history_invariant :
    Inv initState ∧
    (∀ (s : HistoryState) (sc : Scene), Inv s → Inv (commit s sc)) ∧
    (∀ s : HistoryState, Inv s → Inv (handleUndo s)) ∧
    (∀ s : HistoryState, Inv s → Inv (handleRedo s)) ∧
    (∀ s : HistoryState, canUndo s = true ↔ 0 < s.historyIndex) ∧
    (∀ s : HistoryState, canRedo s = true ↔
      s.historyIndex < (s.history.length : ℤ) - 1) := by
  refine ⟨⟨by norm_num [initState], by norm_num [initState]⟩,
    fun s sc h => ?_, fun s h => ?_, fun s h => ?_, fun s => ?_, fun s => ?_⟩
  · obtain ⟨h1, h2⟩ := h
    constructor
    · show -1 ≤ s.historyIndex + 1
      omega
    · show s.historyIndex + 1 <
        ((s.history.take (s.historyIndex + 1).toNat ++ [sc]).length : ℤ)
      rw [List.length_append, List.length_take, List.length_singleton]
      omega
  · obtain ⟨h1, h2⟩ := h
    by_cases hg : 0 < s.historyIndex
    · rw [handleUndo_step s hg]
      refine ⟨?_, ?_⟩
      · show -1 ≤ s.historyIndex - 1
        omega
      · show s.historyIndex - 1 < (s.history.length : ℤ)
        omega
    · rw [handleUndo_noop s (by omega)]
      exact ⟨h1, h2⟩
  · obtain ⟨h1, h2⟩ := h
    by_cases hg : s.historyIndex < (s.history.length : ℤ) - 1
    · rw [handleRedo_step s hg]
      refine ⟨?_, ?_⟩
      · show -1 ≤ s.historyIndex + 1
        omega
      · show s.historyIndex + 1 < (s.history.length : ℤ)
        omega
    · rw [handleRedo_noop s (by omega)]
      exact ⟨h1, h2⟩
  · unfold canUndo
    exact decide_eq_true_iff
  · unfold canRedo
    exact decide_eq_true_iff

/-- Witness for C6: the invariant holds after one commit from the
initial state, whose hypothesis is discharged by the initial-state part
of the theorem itself. -/
theorem spec_c6_history_invariant_witness :
    Inv (commit initState []) ∧ (canUndo initState = true ↔
      0 < initState.historyIndex) :=
  ⟨spec_c6_history_invariant.2.1 initState [] spec_c6_history_invariant.1,
   spec_c6_history_invariant.2.2.2.2.1 initState⟩

end Whiteboard
